import Mathlib

/-!
Verification of the big-dipper step sequencer against its code.

Shallow embedding of the core logic:
* preset codec (`encodePreset` / `decodePreset`, from src/src/tactile-button.js,
  second module: the preset encoder),
* tempo bit-field decoding and BPM calculation (`SequencerClock`,
  src/src/sequencer-clock.js),
* Euclidean pattern generation, rotation and per-tick dispatch (`SamplePlayer`,
  src/src/sample-player.js, first module version),
* cross-tab leader/follower synchronisation (`CrossTabSync`,
  src/src/dip-switch.js, second module version).

JavaScript strings are modelled as `List Char`, byte arrays as `List Nat`
with explicit `% 256` masking where the source masks with `& 0xff`, and JS
`Map`s as association lists in insertion order (JS map keys are unique; `set`
on a fresh key appends, `delete` removes the entry in place).
-/

namespace BigDipper

/-! ### Preset codec (src/src/tactile-button.js, preset encoder module)

`btoa` operates on a binary string built by `String.fromCharCode(...data)`;
each byte maps to one char, so base64 is modelled directly on byte lists.
-/

/-- The standard base64 alphabet used by `btoa` / `atob`. -/
def b64Chars : List Char :=
  "ABCDEFGHIJKLMNOPQRSTUVWXYZabcdefghijklmnopqrstuvwxyz0123456789+/".toList

/-- Pack bytes into 6-bit groups, exactly as base64 encoding does
(partial final groups keep the high bits, low bits zero-filled). -/
def bytesToSextets : List Nat → List Nat
  | a :: b :: c :: rest =>
    a / 4 :: (a % 4 * 16 + b / 16) :: (b % 16 * 4 + c / 64) :: c % 64 :: bytesToSextets rest
  | [a, b] => [a / 4, a % 4 * 16 + b / 16, b % 16 * 4]
  | [a] => [a / 4, a % 4 * 16]
  | [] => []

/-- `'='` padding appended by `btoa` for inputs whose length is not a
multiple of three. -/
def padFor (n : Nat) : List Char :=
  if n % 3 = 1 then ['=', '=']
  else if n % 3 = 2 then ['=']
  else []

/-- Model of `btoa` on a byte list. -/
def btoaModel (bytes : List Nat) : List Char :=
  (bytesToSextets bytes).map (fun v => b64Chars.getD v '?') ++ padFor bytes.length

/-- The URL-safe substitution: replace every `'+'` with `'-'` and every
`'/'` with `'_'`, per character. -/
def toUrlSafeChar (c : Char) : Char :=
  if c = '+' then '-' else if c = '/' then '_' else c

/-- Reverse substitution: replace every `'-'` with `'+'` and every `'_'`
with `'/'`, per character. -/
def fromUrlSafeChar (c : Char) : Char :=
  if c = '-' then '+' else if c = '_' then '/' else c

/-- Strip all trailing `'='` characters (the padding-removal regex). -/
def stripTrailingEq (s : List Char) : List Char :=
  (s.reverse.dropWhile (fun c => c = '=')).reverse

/-- Concatenation of the instrument rows into the flat byte buffer
(the `data[offset++] = instrumentRowBytes[row][i]` loop). -/
def concatRows : List (List Nat) → List Nat
  | [] => []
  | r :: rs => r ++ concatRows rs

/-- `encodePreset(settingsRowBytes, instrumentRowBytes)`:
validates arities, packs 3 + 8×6 = 51 bytes (masked with `& 0xff`),
base64-encodes, converts to the URL-safe alphabet and strips padding. -/
def encodePreset (settingsRowBytes : List Nat) (instrumentRowBytes : List (List Nat)) :
    Except String (List Char) :=
  if settingsRowBytes.length < 3 then
    .error "Settings row must have at least 3 bytes"
  else if instrumentRowBytes.length ≠ 8 then
    .error "Must have exactly 8 instrument rows"
  else if instrumentRowBytes.any (fun r => r.length ≠ 6) then
    .error "Instrument row must have exactly 6 bytes"
  else
    let data : List Nat :=
      (settingsRowBytes.take 3).map (· % 256) ++
        concatRows (instrumentRowBytes.map (fun r => r.map (· % 256)))
    .ok (stripTrailingEq ((btoaModel data).map toUrlSafeChar))

/-- Value of a base64 alphabet character (`none` for characters outside the
alphabet, which make `atob` throw). -/
def b64CharVal (c : Char) : Option Nat :=
  let i := b64Chars.indexOf c
  if i < 64 then some i else none

/-- `atob` removes up to two trailing `'='` characters before decoding. -/
def dropPad (s : List Char) : List Char :=
  if s.getLast? = some '=' then
    let s1 := s.dropLast
    if s1.getLast? = some '=' then s1.dropLast else s1
  else s

/-- Reassemble bytes from 6-bit groups, exactly as base64 decoding does.
A single leftover sextet is invalid (`atob` throws). -/
def sextetsToBytes : List Nat → Option (List Nat)
  | a :: b :: c :: d :: rest =>
    (sextetsToBytes rest).map
      (fun bs => (a * 4 + b / 16) :: (b % 16 * 16 + c / 4) :: (c % 4 * 64 + d) :: bs)
  | [] => some []
  | [_] => none
  | [a, b] => some [a * 4 + b / 16]
  | [a, b, c] => some [a * 4 + b / 16, b % 16 * 16 + c / 4]

/-- Model of `atob`: strip up to two trailing pads, reject a remainder of one
character, reject characters outside the alphabet, decode sextets to bytes. -/
def atobModel (s : List Char) : Option (List Nat) :=
  let s1 := dropPad s
  if s1.length % 4 = 1 then none
  else (s1.mapM b64CharVal).bind sextetsToBytes

/-- Split the 48 instrument bytes back into 8 rows of 6
(the fixed `data[offset] .. data[offset+5]` loop). -/
def chunk6 : List Nat → List (List Nat)
  | a :: b :: c :: d :: e :: f :: rest => [a, b, c, d, e, f] :: chunk6 rest
  | _ => []

/-- `decodePreset(base64String)`: reject empty input, restore the standard
alphabet, pad to a multiple of four, base64-decode, require exactly 51 bytes,
and re-split into 3 settings bytes and 8×6 instrument bytes. -/
def decodePreset (s : List Char) : Except String (List Nat × List (List Nat)) :=
  if s.length = 0 then .error "Invalid base64 string"
  else
    let b64 := s.map fromUrlSafeChar
    let padded := b64 ++ List.replicate ((4 - b64.length % 4) % 4) '='
    match atobModel padded with
    | none => .error "Failed to decode preset"
    | some data =>
      if data.length ≠ 51 then .error "Invalid preset data length"
      else .ok (data.take 3, chunk6 (data.drop 3))

/-! ### Preset codec lemmas -/

/-- The URL-safe base64 alphabet (`A-Z a-z 0-9 - _`). -/
def b64UrlChars : List Char :=
  "ABCDEFGHIJKLMNOPQRSTUVWXYZabcdefghijklmnopqrstuvwxyz0123456789-_".toList

theorem bytesToSextets_lt64 :
    ∀ l : List Nat, (∀ x ∈ l, x < 256) → ∀ v ∈ bytesToSextets l, v < 64
  | [], _, v, hv => by simp [bytesToSextets] at hv
  | [a], h, v, hv => by
    have ha : a < 256 := h a (by simp)
    simp [bytesToSextets] at hv
    rcases hv with hv | hv <;> omega
  | [a, b], h, v, hv => by
    have ha : a < 256 := h a (by simp)
    have hb : b < 256 := h b (by simp)
    simp [bytesToSextets] at hv
    rcases hv with hv | hv | hv <;> omega
  | a :: b :: c :: rest, h, v, hv => by
    have ha : a < 256 := h a (by simp)
    have hb : b < 256 := h b (by simp)
    have hc : c < 256 := h c (by simp)
    simp only [bytesToSextets, List.mem_cons] at hv
    rcases hv with hv | hv | hv | hv | hv
    · omega
    · omega
    · omega
    · omega
    · exact bytesToSextets_lt64 rest (fun x hx => h x (by simp [hx])) v hv

theorem length_bytesToSextets :
    ∀ l : List Nat, l.length % 3 = 0 → (bytesToSextets l).length = l.length / 3 * 4
  | [], _ => rfl
  | [_], h => by simp at h
  | [_, _], h => by simp at h
  | a :: b :: c :: rest, h => by
    have hr : rest.length % 3 = 0 := by
      have : (a :: b :: c :: rest).length = rest.length + 3 := by simp
      omega
    have ih := length_bytesToSextets rest hr
    simp only [bytesToSextets, List.length_cons, ih]
    omega

theorem sextetsToBytes_bytesToSextets :
    ∀ l : List Nat, l.length % 3 = 0 → (∀ x ∈ l, x < 256) →
      sextetsToBytes (bytesToSextets l) = some l
  | [], _, _ => rfl
  | [_], h, _ => by simp at h
  | [_, _], h, _ => by simp at h
  | a :: b :: c :: rest, h, hlt => by
    have hr : rest.length % 3 = 0 := by
      have : (a :: b :: c :: rest).length = rest.length + 3 := by simp
      omega
    have ih := sextetsToBytes_bytesToSextets rest hr (fun x hx => hlt x (by simp [hx]))
    have hb : b < 256 := hlt b (by simp)
    have hc : c < 256 := hlt c (by simp)
    simp only [bytesToSextets, sextetsToBytes, ih, Option.map_some']
    have e1 : a / 4 * 4 + (a % 4 * 16 + b / 16) / 16 = a := by omega
    have e2 : (a % 4 * 16 + b / 16) % 16 * 16 + (b % 16 * 4 + c / 64) / 4 = b := by omega
    have e3 : (b % 16 * 4 + c / 64) % 4 * 64 + c % 64 = c := by omega
    rw [e1, e2, e3]

/-- All the per-character facts needed about encoding a sextet, by enumeration. -/
theorem char_facts :
    ∀ v, v < 64 →
      fromUrlSafeChar (toUrlSafeChar (b64Chars.getD v '?')) = b64Chars.getD v '?' ∧
      b64CharVal (b64Chars.getD v '?') = some v ∧
      toUrlSafeChar (b64Chars.getD v '?') ≠ '=' ∧
      toUrlSafeChar (b64Chars.getD v '?') ∈ b64UrlChars := by decide

theorem mapM_b64CharVal_map :
    ∀ vs : List Nat, (∀ v ∈ vs, v < 64) →
      (vs.map (fun v => b64Chars.getD v '?')).mapM b64CharVal = some vs := by
  intro vs
  induction vs with
  | nil => intro _; rfl
  | cons v rest ih =>
    intro h
    have hv := (char_facts v (h v (by simp))).2.1
    simp only [List.map_cons, List.mapM_cons, hv, ih (fun x hx => h x (by simp [hx])),
      Option.pure_def, Option.bind_some]
    rfl

theorem dropWhile_eq_self_of_all {α : Type} {p : α → Bool} :
    ∀ l : List α, (∀ c ∈ l, p c = false) → l.dropWhile p = l
  | [], _ => rfl
  | c :: rest, h => by simp [List.dropWhile_cons, h c (by simp)]

theorem stripTrailingEq_eq_self (s : List Char) (h : ∀ c ∈ s, c ≠ '=') :
    stripTrailingEq s = s := by
  unfold stripTrailingEq
  rw [dropWhile_eq_self_of_all s.reverse, List.reverse_reverse]
  intro c hc
  have hcs : c ∈ s := List.mem_reverse.mp hc
  simp [h c hcs]

theorem dropPad_eq_self (s : List Char) (h : ∀ c ∈ s, c ≠ '=') :
    dropPad s = s := by
  unfold dropPad
  rw [if_neg]
  intro hlast
  obtain ⟨hne, hx⟩ := List.mem_getLast?_eq_getLast hlast
  exact h _ (List.getLast_mem hne) hx.symm

theorem list_eq_six {α : Type} (r : List α) (hr : r.length = 6) :
    ∃ a b c d e f, r = [a, b, c, d, e, f] := by
  rcases r with _ | ⟨a, r⟩
  · simp only [List.length_nil] at hr
    omega
  rcases r with _ | ⟨b, r⟩
  · simp only [List.length_cons, List.length_nil] at hr
    omega
  rcases r with _ | ⟨c, r⟩
  · simp only [List.length_cons, List.length_nil] at hr
    omega
  rcases r with _ | ⟨d, r⟩
  · simp only [List.length_cons, List.length_nil] at hr
    omega
  rcases r with _ | ⟨e, r⟩
  · simp only [List.length_cons, List.length_nil] at hr
    omega
  rcases r with _ | ⟨f, r⟩
  · simp only [List.length_cons, List.length_nil] at hr
    omega
  rcases r with _ | ⟨g, r⟩
  · exact ⟨a, b, c, d, e, f, rfl⟩
  · simp only [List.length_cons] at hr
    omega

theorem chunk6_concatRows :
    ∀ rows : List (List Nat), (∀ r ∈ rows, r.length = 6) →
      chunk6 (concatRows rows) = rows
  | [], _ => rfl
  | r :: rows, h => by
    have hr : r.length = 6 := h r (by simp)
    obtain ⟨a, b, c, d, e, f, rfl⟩ := list_eq_six r hr
    have ih := chunk6_concatRows rows (fun x hx => h x (by simp [hx]))
    simp [concatRows, chunk6, ih]

theorem length_concatRows :
    ∀ rows : List (List Nat), (∀ r ∈ rows, r.length = 6) →
      (concatRows rows).length = 6 * rows.length
  | [], _ => rfl
  | r :: rows, h => by
    have hr : r.length = 6 := h r (by simp)
    have ih := length_concatRows rows (fun x hx => h x (by simp [hx]))
    simp only [concatRows, List.length_append, hr, ih, List.length_cons]
    ring

theorem mem_concatRows :
    ∀ (rows : List (List Nat)) (x : Nat), x ∈ concatRows rows → ∃ r ∈ rows, x ∈ r
  | [], x, hx => by simp [concatRows] at hx
  | r :: rows, x, hx => by
    rcases List.mem_append.mp hx with h | h
    · exact ⟨r, by simp, h⟩
    · obtain ⟨r', hr', hx'⟩ := mem_concatRows rows x h
      exact ⟨r', by simp [hr'], hx'⟩

/-- Additional per-character enumeration: an alphabet character itself is
never `'='`. -/
theorem char_ne_eq : ∀ v, v < 64 → b64Chars.getD v '?' ≠ '=' := by decide

/-- For a 51-byte buffer, `btoa` emits no padding and the URL-safe token is
the plain character image of the sextets. -/
theorem token_spec (data : List Nat) (hlen : data.length = 51) (hlt : ∀ x ∈ data, x < 256) :
    stripTrailingEq ((btoaModel data).map toUrlSafeChar) =
      (bytesToSextets data).map (fun v => toUrlSafeChar (b64Chars.getD v '?')) := by
  have hpad : padFor data.length = [] := by
    simp [padFor, hlen]
  rw [btoaModel, hpad, List.append_nil, List.map_map]
  apply stripTrailingEq_eq_self
  intro c hc
  rw [List.mem_map] at hc
  obtain ⟨v, hv, rfl⟩ := hc
  exact (char_facts v (bytesToSextets_lt64 data hlt v hv)).2.2.1

/-- Decoding the token of a valid 51-byte buffer recovers the buffer and
re-splits it. -/
theorem decode_token (data : List Nat) (hlen : data.length = 51) (hlt : ∀ x ∈ data, x < 256) :
    decodePreset ((bytesToSextets data).map (fun v => toUrlSafeChar (b64Chars.getD v '?'))) =
      .ok (data.take 3, chunk6 (data.drop 3)) := by
  have hsx64 : ∀ v ∈ bytesToSextets data, v < 64 := bytesToSextets_lt64 data hlt
  have hsl : (bytesToSextets data).length = 68 := by
    rw [length_bytesToSextets data (by omega)]
    omega
  have htok : ((bytesToSextets data).map
      (fun v => toUrlSafeChar (b64Chars.getD v '?'))).length = 68 := by
    rw [List.length_map, hsl]
  rw [decodePreset]
  rw [if_neg (by omega)]
  have hback : ((bytesToSextets data).map
        (fun v => toUrlSafeChar (b64Chars.getD v '?'))).map fromUrlSafeChar =
      (bytesToSextets data).map (fun v => b64Chars.getD v '?') := by
    rw [List.map_map]
    apply List.map_congr_left
    intro v hv
    exact (char_facts v (hsx64 v hv)).1
  simp only [hback, List.length_map, hsl]
  have hrep : List.replicate ((4 - 68 % 4) % 4) '=' = ([] : List Char) := by decide
  rw [hrep, List.append_nil]
  have hdrop : dropPad ((bytesToSextets data).map (fun v => b64Chars.getD v '?')) =
      (bytesToSextets data).map (fun v => b64Chars.getD v '?') := by
    apply dropPad_eq_self
    intro c hc
    rw [List.mem_map] at hc
    obtain ⟨v, hv, rfl⟩ := hc
    exact char_ne_eq v (hsx64 v hv)
  rw [atobModel]
  simp only [hdrop, List.length_map, hsl]
  rw [if_neg (by omega)]
  rw [mapM_b64CharVal_map _ hsx64]
  simp only [Option.some_bind]
  rw [sextetsToBytes_bytesToSextets data (by omega) hlt]
  simp [hlen]

/-- C1. For every valid preset (3 settings bytes, 8 instrument rows of 6
bytes, all bytes in 0-255), `decodePreset (encodePreset x)` returns exactly
the same bytes, and the produced token uses only the URL-safe base64
alphabet with no `'='` padding. -/
theorem encode_decode_roundtrip
    (s3 : List Nat) (rows : List (List Nat))
    (hs3 : s3.length = 3) (hrows : rows.length = 8)
    (hr6 : ∀ r ∈ rows, r.length = 6)
    (hs3b : ∀ x ∈ s3, x < 256) (hrb : ∀ r ∈ rows, ∀ x ∈ r, x < 256) :
    ∃ tok, encodePreset s3 rows = .ok tok ∧
      decodePreset tok = .ok (s3, rows) ∧
      ∀ c ∈ tok, c ∈ b64UrlChars ∧ c ≠ '=' := by
  have hmask3 : (s3.take 3).map (· % 256) = s3 := by
    rw [show (3 : Nat) = s3.length from hs3.symm, List.take_length]
    have h1 : s3.map (· % 256) = s3.map id :=
      List.map_congr_left (fun x hx => Nat.mod_eq_of_lt (hs3b x hx))
    rw [h1, List.map_id]
  have hmaskrows : rows.map (fun r => r.map (· % 256)) = rows := by
    have h1 : rows.map (fun r => r.map (· % 256)) = rows.map id := by
      apply List.map_congr_left
      intro r hr
      have h2 : r.map (· % 256) = r.map id :=
        List.map_congr_left (fun x hx => Nat.mod_eq_of_lt (hrb r hr x hx))
      rw [h2, List.map_id]
      rfl
    rw [h1, List.map_id]
  have hdlen : (s3 ++ concatRows rows).length = 51 := by
    rw [List.length_append, hs3, length_concatRows rows hr6, hrows]
  have hdlt : ∀ x ∈ s3 ++ concatRows rows, x < 256 := by
    intro x hx
    rcases List.mem_append.mp hx with hx | hx
    · exact hs3b x hx
    · obtain ⟨r, hr, hxr⟩ := mem_concatRows rows x hx
      exact hrb r hr x hxr
  have hany : rows.any (fun r => r.length ≠ 6) = false := by
    rw [List.any_eq_false]
    intro r hr
    simp [hr6 r hr]
  have henc : encodePreset s3 rows =
      .ok (stripTrailingEq ((btoaModel (s3 ++ concatRows rows)).map toUrlSafeChar)) := by
    rw [encodePreset, if_neg (by omega), if_neg (by omega)]
    rw [if_neg (by simp only [hany]; exact Bool.false_ne_true)]
    rw [hmask3, hmaskrows]
  refine ⟨_, henc, ?_, ?_⟩
  · rw [token_spec _ hdlen hdlt, decode_token _ hdlen hdlt]
    have htake : (s3 ++ concatRows rows).take 3 = s3 := by
      rw [show (3 : Nat) = s3.length from hs3.symm, List.take_left]
    have hdrop : (s3 ++ concatRows rows).drop 3 = concatRows rows := by
      rw [show (3 : Nat) = s3.length from hs3.symm, List.drop_left]
    rw [htake, hdrop, chunk6_concatRows rows hr6]
  · rw [token_spec _ hdlen hdlt]
    intro c hc
    rw [List.mem_map] at hc
    obtain ⟨v, hv, rfl⟩ := hc
    have hv64 := bytesToSextets_lt64 _ hdlt v hv
    exact ⟨(char_facts v hv64).2.2.2, (char_facts v hv64).2.2.1⟩

/-- C6. `decodePreset` fails on every input whose base64-decoded byte length
is not 51, and `encodePreset` errors on a settings row shorter than 3 bytes,
an instrument argument without exactly 8 rows, or any row not exactly
6 bytes long. -/
theorem codec_error_handling :
    (∀ (s : List Char) (bs : List Nat),
        atobModel (s.map fromUrlSafeChar ++
          List.replicate ((4 - (s.map fromUrlSafeChar).length % 4) % 4) '=') = some bs →
        bs.length ≠ 51 → (decodePreset s).isOk = false) ∧
    (∀ (s3 : List Nat) (rows : List (List Nat)),
        s3.length < 3 → (encodePreset s3 rows).isOk = false) ∧
    (∀ (s3 : List Nat) (rows : List (List Nat)),
        rows.length ≠ 8 → (encodePreset s3 rows).isOk = false) ∧
    (∀ (s3 : List Nat) (rows : List (List Nat)) (r : List Nat),
        r ∈ rows → r.length ≠ 6 → (encodePreset s3 rows).isOk = false) := by
  refine ⟨?_, ?_, ?_, ?_⟩
  · intro s bs hatob hne
    rw [decodePreset]
    by_cases h0 : s.length = 0
    · rw [if_pos h0]
      rfl
    · rw [if_neg h0]
      simp only [hatob]
      rw [if_pos hne]
      rfl
  · intro s3 rows h
    rw [encodePreset, if_pos h]
    rfl
  · intro s3 rows h
    rw [encodePreset]
    by_cases h3 : s3.length < 3
    · rw [if_pos h3]
      rfl
    · rw [if_neg h3, if_pos h]
      rfl
  · intro s3 rows r hr hlen
    rw [encodePreset]
    by_cases h3 : s3.length < 3
    · rw [if_pos h3]
      rfl
    · rw [if_neg h3]
      by_cases h8 : rows.length ≠ 8
      · rw [if_pos h8]
        rfl
      · rw [if_neg h8, if_pos (List.any_eq_true.mpr ⟨r, hr, by simp [hlen]⟩)]
        rfl

/-- Witness for C1 at a concrete valid preset. -/
theorem encode_decode_roundtrip_witness :
    ∃ tok, encodePreset [1, 2, 3] (List.replicate 8 [9, 8, 7, 6, 5, 4]) = .ok tok ∧
      decodePreset tok = .ok ([1, 2, 3], List.replicate 8 [9, 8, 7, 6, 5, 4]) ∧
      ∀ c ∈ tok, c ∈ b64UrlChars ∧ c ≠ '=' :=
  encode_decode_roundtrip [1, 2, 3] (List.replicate 8 [9, 8, 7, 6, 5, 4])
    (by decide) (by decide) (by decide) (by decide) (by decide)

/-- Witness for C6 at concrete malformed inputs. -/
theorem codec_error_handling_witness :
    (decodePreset ['A', 'A', 'A', 'A']).isOk = false ∧
    (encodePreset [1] [[1]]).isOk = false ∧
    (encodePreset [1, 2, 3] []).isOk = false ∧
    (encodePreset [1, 2, 3]
      [[1], [1], [1], [1], [1], [1], [1], [1]]).isOk = false :=
  ⟨codec_error_handling.1 ['A', 'A', 'A', 'A'] [0, 0, 0] (by decide) (by decide),
   codec_error_handling.2.1 [1] [[1]] (by decide),
   codec_error_handling.2.2.1 [1, 2, 3] [] (by decide),
   codec_error_handling.2.2.2 [1, 2, 3] [[1], [1], [1], [1], [1], [1], [1], [1]]
     [1] (by decide) (by decide)⟩

/-! ### Euclidean pattern generator (src/src/sample-player.js, first module
version, `generateEuclideanPattern`) -/

/-- `generateEuclideanPattern(n, k)`: `k = 0` gives all-rests, `k ≥ n` gives
all-pulses, otherwise step `i` is active iff `(i * k) % n < k`. -/
def generateEuclideanPattern (n k : Nat) : List Bool :=
  if k = 0 then List.replicate n false
  else if k ≥ n then List.replicate n true
  else (List.range n).map (fun i => decide (i * k % n < k))

/-- Division step: adding `k < n` to `a` bumps `(a + k) / n` by one exactly
when the new remainder dropped below `k`. -/
theorem div_succ_indicator (n k a : Nat) (hk : 0 < k) (hkn : k < n) :
    (a + k) / n = a / n + (if (a + k) % n < k then 1 else 0) := by
  have hn : 0 < n := Nat.lt_trans hk hkn
  have e1 := Nat.div_add_mod a n
  have e2 := Nat.div_add_mod (a + k) n
  have r1lt : a % n < n := Nat.mod_lt a hn
  have r2lt : (a + k) % n < n := Nat.mod_lt (a + k) hn
  rcases Nat.lt_trichotomy ((a + k) / n) (a / n) with h | h | h
  · exfalso
    have hmul : n * ((a + k) / n + 1) ≤ n * (a / n) :=
      Nat.mul_le_mul_left n (Nat.succ_le_of_lt h)
    rw [Nat.mul_succ] at hmul
    generalize hp2 : n * ((a + k) / n) = p2 at e2 hmul
    generalize hp1 : n * (a / n) = p1 at e1 hmul
    generalize hr1 : a % n = r1 at e1 r1lt
    generalize hr2 : (a + k) % n = r2 at e2 r2lt
    omega
  · have hr : ¬ (a + k) % n < k := by
      rw [h] at e2
      generalize hp : n * (a / n) = p at e1 e2
      generalize hr1 : a % n = r1 at e1 r1lt
      generalize hr2 : (a + k) % n = r2 at e2 r2lt
      omega
    rw [h, if_neg hr]
    omega
  · have hub : (a + k) / n ≤ a / n + 1 := by
      by_contra hc
      push_neg at hc
      have hmul : n * (a / n + 2) ≤ n * ((a + k) / n) :=
        Nat.mul_le_mul_left n (Nat.succ_le_of_lt hc)
      rw [Nat.mul_add] at hmul
      generalize hp2 : n * ((a + k) / n) = p2 at e2 hmul
      generalize hp1 : n * (a / n) = p1 at e1 hmul
      generalize hr1 : a % n = r1 at e1 r1lt
      generalize hr2 : (a + k) % n = r2 at e2 r2lt
      omega
    have heq : (a + k) / n = a / n + 1 := le_antisymm hub h
    rw [heq, Nat.mul_succ] at e2
    have hr : (a + k) % n < k := by
      generalize hp : n * (a / n) = p at e1 e2
      generalize hr1 : a % n = r1 at e1 r1lt
      generalize hr2 : (a + k) % n = r2 at e2 r2lt
      omega
    rw [heq, if_pos hr]

/-- Running count of active steps of the threshold pattern. -/
theorem euclid_countP (n k : Nat) (hk : 0 < k) (hkn : k < n) :
    ∀ m, (List.range (m + 1)).countP (fun i => decide (i * k % n < k)) = m * k / n + 1 := by
  intro m
  induction m with
  | zero =>
    rw [List.range_succ, List.range_zero, List.nil_append]
    simp [List.countP_cons, hk]
  | succ m ih =>
    rw [List.range_succ, List.countP_append, ih]
    have hstep : (m + 1) * k / n = m * k / n + (if (m + 1) * k % n < k then 1 else 0) := by
      have h1 := div_succ_indicator n k (m * k) hk hkn
      rw [show m * k + k = (m + 1) * k by ring] at h1
      exact h1
    simp only [List.countP_cons, List.countP_nil, decide_eq_true_eq]
    omega

/-- `(n - 1) * k / n = k - 1` for `0 < k < n`. -/
theorem pred_mul_div (n k : Nat) (hk : 0 < k) (hkn : k < n) :
    (n - 1) * k / n = k - 1 := by
  have hn : 0 < n := Nat.lt_trans hk hkn
  have hsplit : (n - 1) * k = n * (k - 1) + (n - k) := by
    cases n with
    | zero => omega
    | succ n' =>
      cases k with
      | zero => omega
      | succ k' =>
        have hkn' : k' ≤ n' := by omega
        simp only [Nat.succ_sub_one]
        rw [Nat.mul_succ, Nat.succ_mul]
        generalize n' * k' = p
        omega
  rw [hsplit, Nat.mul_add_div hn, Nat.div_eq_of_lt (by omega)]
  omega

/-- C3. For `steps > 0` and `pulses ≤ steps`, the generated pattern has
length `steps`, exactly `pulses` active entries, and an active first entry
whenever `pulses > 0`. -/
theorem generateEuclideanPattern_spec (n k : Nat) (hn : 0 < n) (hkn : k ≤ n) :
    (generateEuclideanPattern n k).length = n ∧
    (generateEuclideanPattern n k).count true = k ∧
    (0 < k → (generateEuclideanPattern n k).getD 0 false = true) := by
  by_cases hk0 : k = 0
  · subst hk0
    refine ⟨by simp [generateEuclideanPattern], ?_, fun h => absurd h (by omega)⟩
    rw [generateEuclideanPattern, if_pos rfl]
    simp [List.count_replicate]
  · by_cases hge : k ≥ n
    · have hkeq : k = n := le_antisymm hkn hge
      subst hkeq
      rw [generateEuclideanPattern, if_neg hk0, if_pos (le_refl k)]
      refine ⟨by simp, by simp [List.count_replicate], ?_⟩
      intro _
      cases k with
      | zero => omega
      | succ k' => simp [List.replicate_succ]
    · have hlt : k < n := lt_of_not_ge hge
      have hk : 0 < k := Nat.pos_of_ne_zero hk0
      rw [generateEuclideanPattern, if_neg hk0, if_neg hge]
      refine ⟨by simp, ?_, ?_⟩
      · rw [List.count_eq_countP, List.countP_map]
        have hcomp :
            ((fun b => b == true) ∘ fun i => decide (i * k % n < k)) =
              fun i => decide (i * k % n < k) := by
          funext i
          simp
        rw [hcomp]
        obtain ⟨m, rfl⟩ : ∃ m, n = m + 1 := ⟨n - 1, by omega⟩
        have hp := pred_mul_div (m + 1) k hk hlt
        rw [Nat.add_sub_cancel] at hp
        rw [euclid_countP (m + 1) k hk hlt m, hp]
        omega
      · intro _
        obtain ⟨m, rfl⟩ : ∃ m, n = m + 1 := ⟨n - 1, by omega⟩
        rw [List.range_succ_eq_map]
        simp [hk]

/-- Witness for C3 at `steps = 8`, `pulses = 3`. -/
theorem generateEuclideanPattern_spec_witness :
    (generateEuclideanPattern 8 3).length = 8 ∧
    (generateEuclideanPattern 8 3).count true = 3 ∧
    (0 < 3 → (generateEuclideanPattern 8 3).getD 0 false = true) :=
  generateEuclideanPattern_spec 8 3 (by decide) (by decide)

/-! ### Sequencer clock (src/src/sequencer-clock.js)

`calculateBPM` divides a small integer by a power of two times four; every
value involved is an exactly representable dyadic rational in JS doubles, so
`ℚ` is an exact model. -/

/-- Decoded tempo settings of the SET row (first 16 bits). -/
structure TempoSettings where
  baseTempo : Nat
  isMultiply : Bool
  tempoFactorExponent : Nat
  deriving DecidableEq, Repr

/-- `extractTempoSettings(settings)`: base tempo is the high byte, the
multiply flag is bit 7 of the low byte, the factor exponent bits 6-5. -/
def extractTempoSettings (settings : Nat) : TempoSettings :=
  { baseTempo := settings / 256 % 256
  , isMultiply := settings % 256 / 128 % 2 == 1
  , tempoFactorExponent := settings % 256 / 32 % 4 }

/-- `calculateBPM(settings)`: `baseTempo * 2^e / 4` when multiplying,
`baseTempo / (2^e * 4)` when dividing. -/
def calculateBPM (settings : Nat) : ℚ :=
  let t := extractTempoSettings settings
  let factor : ℚ := 2 ^ t.tempoFactorExponent
  if t.isMultiply then (t.baseTempo : ℚ) * factor / 4
  else (t.baseTempo : ℚ) / (factor * 4)

/-- C7. For a fixed low settings byte (multiply flag and exponent),
`calculateBPM` is monotone in the base-tempo byte, and any settings value
whose base-tempo byte is zero yields BPM 0. -/
theorem calculateBPM_monotone_and_zero :
    (∀ low t1 t2 : Nat, low < 256 → t1 ≤ t2 → t2 ≤ 255 →
      calculateBPM (t1 * 256 + low) ≤ calculateBPM (t2 * 256 + low)) ∧
    (∀ s : Nat, s / 256 % 256 = 0 → calculateBPM s = 0) := by
  constructor
  · intro low t1 t2 hlow h12 h255
    have hb1 : (t1 * 256 + low) / 256 % 256 = t1 := by omega
    have hb2 : (t2 * 256 + low) / 256 % 256 = t2 := by omega
    have hmod1 : (t1 * 256 + low) % 256 = low := by omega
    have hmod2 : (t2 * 256 + low) % 256 = low := by omega
    have hcast : (t1 : ℚ) ≤ (t2 : ℚ) := Nat.cast_le.mpr h12
    have hfpos : (0 : ℚ) < 2 ^ (low / 32 % 4) := by positivity
    rw [calculateBPM, calculateBPM]
    simp only [extractTempoSettings, hb1, hb2, hmod1, hmod2]
    by_cases hm : low / 128 % 2 = 1
    · simp only [hm, beq_self_eq_true, if_true]
      exact (div_le_div_iff_of_pos_right (by norm_num)).mpr
        (mul_le_mul_of_nonneg_right hcast hfpos.le)
    · have hm' : (low / 128 % 2 == 1) = false := by
        simp [hm]
      simp only [hm', if_false]
      exact (div_le_div_iff_of_pos_right (by positivity)).mpr hcast
  · intro s h0
    rw [calculateBPM]
    simp only [extractTempoSettings, h0]
    split <;> simp

/-- Witness for C7 at concrete settings values. -/
theorem calculateBPM_monotone_and_zero_witness :
    calculateBPM (2 * 256 + 0) ≤ calculateBPM (3 * 256 + 0) ∧
    calculateBPM 77 = 0 :=
  ⟨calculateBPM_monotone_and_zero.1 0 2 3 (by decide) (by decide) (by decide),
   calculateBPM_monotone_and_zero.2 77 (by decide)⟩

/-! ### Sample player (src/src/sample-player.js, first module version)

Row settings decoding, the two step checkers (`stepCheckers[0]` and
`stepCheckers[1]`), and the firing decisions of `processTick`. -/

/-- Decoded instrument-row settings (`extractRowSettings`). -/
structure RowSettings where
  solo : Bool
  mute : Bool
  midiChannel : Nat
  note : Nat
  mode : Nat
  modeSettings : Nat
  deriving DecidableEq, Repr

/-- `extractRowSettings(settings)`: high byte carries solo (bit 7), mute
(bit 6), midi channel (bits 5-3) and note (bits 2-0); low byte carries mode
(bits 2-0) and modeSettings (bits 7-3). -/
def extractRowSettings (settings : Nat) : RowSettings :=
  let firstByte := settings / 256 % 256
  let secondByte := settings % 256
  { solo := firstByte / 128 % 2 == 1
  , mute := firstByte / 64 % 2 == 1
  , midiChannel := firstByte / 8 % 8
  , note := firstByte % 8
  , mode := secondByte % 8
  , modeSettings := secondByte / 8 % 32 }

/-- `isStepActive(index, notes, tickCount, modeSettings)`: bit
`31 - tickCount % 32` of the notes value (`index` and `modeSettings` are
unused by the source). -/
def isStepActive (index notes tickCount modeSettings : Nat) : Bool :=
  Nat.testBit notes (31 - tickCount % 32)

/-- A cached Euclidean parameter block (`getEuclideanPattern` result). -/
structure EuclidParams where
  pattern : List Bool
  totalSteps : Nat
  pulses : Nat
  initialRotation : Int
  rotationIncrement : Int
  deriving DecidableEq, Repr

/-- `getEuclideanPattern(index, notes)`. The per-index cache is keyed by all
four decoded parameters and only memoizes this pure function of `notes`, so
the model computes it directly. `Math.max(0, ...)` is a no-op on naturals. -/
def getEuclideanPattern (notes : Nat) : Option EuclidParams :=
  let totalSteps := notes / 2 ^ 24 % 256
  if totalSteps = 0 then none
  else
    let pulses := notes / 2 ^ 16 % 256
    let initialRotationRaw := notes / 256 % 256
    let initialRotation : Int :=
      if initialRotationRaw > 127 then 128 - (initialRotationRaw : Int)
      else initialRotationRaw
    let rotationIncrementRaw := notes % 256
    let rotationIncrement : Int :=
      if rotationIncrementRaw > 127 then 128 - (rotationIncrementRaw : Int)
      else rotationIncrementRaw
    let effectivePulses := min totalSteps pulses
    some { pattern := generateEuclideanPattern totalSteps effectivePulses
         , totalSteps := totalSteps
         , pulses := effectivePulses
         , initialRotation := initialRotation
         , rotationIncrement := rotationIncrement }

/-- `isStepActiveEuclidean(index, notes, tickCount, modeSettings)`.
JS `%` on numbers is the truncated remainder (`Int.tmod`), and indexing an
array at a negative position yields `undefined`, modelled as `none`; the JS
`-0` case coincides with index 0, as `Int.tmod` has no negative zero.
`index` (cache key) and `modeSettings` are unused by the source. -/
def isStepActiveEuclidean (index notes tickCount modeSettings : Nat) : Option Bool :=
  match getEuclideanPattern notes with
  | none => some false
  | some e =>
    let repeats : Int := (tickCount / e.totalSteps : Nat)
    let currentRotation : Int := e.initialRotation + e.rotationIncrement * repeats
    let mappedIndex : Int := (tickCount % e.totalSteps : Nat)
    let rotatedIndex : Int :=
      Int.tmod (mappedIndex - currentRotation + (e.totalSteps : Int)) (e.totalSteps : Int)
    if 0 ≤ rotatedIndex ∧ rotatedIndex < (e.pattern.length : Int) then
      some (e.pattern.getD rotatedIndex.toNat false)
    else none

/-- Modelled from the spec (§4.2 Rotation): rotation is normalized to a
non-negative value mod `stepsPerCycle` and the lookup index is
`(tick + stepsPerCycle - rotation) mod stepsPerCycle`; parameter decoding is
shared with the code. -/
def specEuclideanActive (notes tick : Nat) : Bool :=
  match getEuclideanPattern notes with
  | none => false
  | some e =>
    let elapsedCycles : Int := (tick / e.totalSteps : Nat)
    let rotation : Int :=
      (e.initialRotation + e.rotationIncrement * elapsedCycles).emod (e.totalSteps : Int)
    let idx : Int := ((tick : Int) + (e.totalSteps : Int) - rotation).emod (e.totalSteps : Int)
    e.pattern.getD idx.toNat false

/-- C4. The code's Euclidean step decision is supposed to equal the
spec's normalized-rotation lookup and be a defined boolean for arbitrarily
large rotations; at `notes = 0x08030001` (8 steps, 3 pulses, rotation
increment 1) and `tickCount = 80` the code instead reads `pattern[-2]`,
returning `undefined`, while the spec formula selects active index 6. -/
theorem euclid_rotation_code_bug :
    isStepActiveEuclidean 0 134414337 80 0 = none ∧
    specEuclideanActive 134414337 80 = true := by
  constructor
  · decide
  · decide

/-- Modelled from the spec (§4.2 Nth-step modifier): the cumulative active
count, `elapsedCycles * pulsesPerCycle` plus the active steps of the current
partial cycle up to and including the current position. -/
def specCumulativeActiveCount (notes tick : Nat) : Nat :=
  match getEuclideanPattern notes with
  | none => 0
  | some e =>
    let elapsed := tick / e.totalSteps
    let pos := tick % e.totalSteps
    elapsed * e.pulses +
      (List.range (pos + 1)).countP (fun i => specEuclideanActive notes (tick - pos + i))

/-- Modelled from the spec (§4.2 Nth-step modifier): with bit 4 of
`modeSettings` set, fire iff `(cumulativeActiveCount mod N == 0)` XNOR the
skip-vs-play bit, where `N = (bits 2-0) + 1` and the mode is bit 3. -/
def specSkipFires (notes tick modeSettings : Nat) : Bool :=
  let skipMode := modeSettings / 8 % 2 == 1
  let n := modeSettings % 8 + 1
  (specCumulativeActiveCount notes tick % n == 0) == skipMode

/-- C5 counterexample: at `notes = 0x08030001`, `tick = 0`,
`modeSettings = 16` (skip-enabled bit set, mode bit clear, N = 1) the rotated
step is active and the claimed XNOR rule forbids firing, yet the code fires:
`modeSettings` never reaches the Euclidean checker's decision. -/
theorem euclid_skip_counterexample :
    16 / 16 % 2 = 1 ∧
    isStepActiveEuclidean 0 134414337 0 16 = some true ∧
    specSkipFires 134414337 0 16 = false := by
  refine ⟨by decide, by decide, by decide⟩

/-- C5 amended: in Euclidean mode the firing decision is independent of
`modeSettings`; no Nth-step skip/play modifier is applied by the code. -/
theorem euclid_modeSettings_irrelevant (index notes tick ms1 ms2 : Nat) :
    isStepActiveEuclidean index notes tick ms1 =
      isStepActiveEuclidean index notes tick ms2 := rfl

/-- One row of the dispatcher's input map (`{settings, notes}`). -/
structure RowValue where
  settings : Nat
  notes : Nat
  deriving DecidableEq, Repr

/-- `stepCheckers[mode]` as consulted by `processTick`: modes 0 and 1 have
checkers, modes 2-7 make the loop skip the row. A possible `undefined` from
the Euclidean checker is falsy in the `if`. -/
def rowFires (index : Nat) (v : RowValue) (tick : Nat) (s : RowSettings) : Bool :=
  match s.mode with
  | 0 => isStepActive index v.notes tick s.modeSettings
  | 1 => (isStepActiveEuclidean index v.notes tick s.modeSettings).getD false
  | _ => false

/-- First pass of `processTick`: does any instrument row have solo set? -/
def hasAnySolo (rows : List (Nat × RowValue)) : Bool :=
  rows.any (fun r => (extractRowSettings r.2.settings).solo)

/-- Firing decisions of `processTick(tickCount, rowValues)`: the instrument
rows are all map entries after the first (`.slice(1)`); a row plays iff it is
not muted, survives the solo filter, and its mode's checker fires. -/
def firedEntries (tick : Nat) (rowValues : List (Nat × RowValue)) :
    List (Nat × RowValue) :=
  let instrumentRows := rowValues.drop 1
  let anySolo := hasAnySolo instrumentRows
  instrumentRows.filter (fun r =>
    let s := extractRowSettings r.2.settings
    !s.mute && (!anySolo || s.solo) && rowFires r.1 r.2 tick s)

/-- Characterization of membership in the fired list. -/
theorem mem_firedEntries (tick : Nat) (rows : List (Nat × RowValue))
    (e : Nat × RowValue) :
    e ∈ firedEntries tick rows ↔
      e ∈ rows.drop 1 ∧
      (extractRowSettings e.2.settings).mute = false ∧
      (hasAnySolo (rows.drop 1) = false ∨
        (extractRowSettings e.2.settings).solo = true) ∧
      rowFires e.1 e.2 tick (extractRowSettings e.2.settings) = true := by
  unfold firedEntries
  simp only [List.mem_filter, Bool.and_eq_true, Bool.or_eq_true, Bool.not_eq_true']
  tauto

/-- C2. On any tick, a fired instrument row is never muted, and when some
instrument row has solo set, every fired row has solo set. -/
theorem processTick_mute_solo (tick : Nat) (rows : List (Nat × RowValue))
    (e : Nat × RowValue) (he : e ∈ firedEntries tick rows) :
    (extractRowSettings e.2.settings).mute = false ∧
    (hasAnySolo (rows.drop 1) = true →
      (extractRowSettings e.2.settings).solo = true) := by
  obtain ⟨-, hmute, hsolo, -⟩ := (mem_firedEntries tick rows e).mp he
  refine ⟨hmute, fun hany => ?_⟩
  rcases hsolo with h | h
  · rw [hany] at h
    exact absurd h (by simp)
  · exact h

/-- Witness for C2: a plain row with an active first step fires and is
neither muted nor suppressed. -/
theorem processTick_mute_solo_witness :
    (extractRowSettings (RowValue.mk 0 (2 ^ 31)).settings).mute = false ∧
    (hasAnySolo ([(0, RowValue.mk 0 0), (1, RowValue.mk 0 (2 ^ 31))].drop 1) = true →
      (extractRowSettings (RowValue.mk 0 (2 ^ 31)).settings).solo = true) :=
  processTick_mute_solo 0 [(0, RowValue.mk 0 0), (1, RowValue.mk 0 (2 ^ 31))]
    (1, RowValue.mk 0 (2 ^ 31)) (by decide)

/-- C10. A row with both solo and mute set never fires itself, yet its solo
bit suppresses every non-soloed row, because solo presence is collected
across all instrument rows before the mute filter. -/
theorem processTick_solo_and_mute (tick : Nat) (rows : List (Nat × RowValue))
    (e : Nat × RowValue) (he : e ∈ rows.drop 1)
    (hsolo : (extractRowSettings e.2.settings).solo = true)
    (hmute : (extractRowSettings e.2.settings).mute = true) :
    e ∉ firedEntries tick rows ∧
    ∀ e' ∈ firedEntries tick rows, (extractRowSettings e'.2.settings).solo = true := by
  have hany : hasAnySolo (rows.drop 1) = true := by
    unfold hasAnySolo
    exact List.any_eq_true.mpr ⟨e, he, by simp [hsolo]⟩
  constructor
  · intro hin
    obtain ⟨-, hmute', -, -⟩ := (mem_firedEntries tick rows e).mp hin
    rw [hmute] at hmute'
    exact absurd hmute' (by simp)
  · intro e' hin
    obtain ⟨-, -, hsolo', -⟩ := (mem_firedEntries tick rows e').mp hin
    rcases hsolo' with h | h
    · rw [hany] at h
      exact absurd h (by simp)
    · exact h

/-- Witness for C10: a solo+mute row (settings `0xC000`) next to a plain row
and a solo row, all with active first steps. -/
theorem processTick_solo_and_mute_witness :
    (1, RowValue.mk 49152 (2 ^ 31)) ∉
      firedEntries 0
        [(0, RowValue.mk 0 0), (1, RowValue.mk 49152 (2 ^ 31)),
         (2, RowValue.mk 0 (2 ^ 31)), (3, RowValue.mk 32768 (2 ^ 31))] ∧
    ∀ e' ∈ firedEntries 0
        [(0, RowValue.mk 0 0), (1, RowValue.mk 49152 (2 ^ 31)),
         (2, RowValue.mk 0 (2 ^ 31)), (3, RowValue.mk 32768 (2 ^ 31))],
      (extractRowSettings e'.2.settings).solo = true :=
  processTick_solo_and_mute 0
    [(0, RowValue.mk 0 0), (1, RowValue.mk 49152 (2 ^ 31)),
     (2, RowValue.mk 0 (2 ^ 31)), (3, RowValue.mk 32768 (2 ^ 31))]
    (1, RowValue.mk 49152 (2 ^ 31)) (by decide) (by decide) (by decide)

/-! ### Cross-tab synchronisation (src/src/dip-switch.js, `CrossTabSync`)

The peer registry (`availableLeaders`, a JS `Map`) is an association list in
insertion order. Outgoing broadcasts carry no local state and are not
modelled; the observable output is the sequence of `tickCallback`
invocations. `Date.now()` is an explicit `now` argument. -/

/-- A registered peer (`{lastSeen, bpm, maxBPM, settings}`); `settings` is
`none` when the announcing message carried no usable settings value. -/
structure Peer where
  lastSeen : Nat
  bpm : Nat
  maxBPM : Nat
  settings : Option Nat
  deriving DecidableEq, Repr

/-- `Map.get`. -/
def listGet {β : Type} : List (String × β) → String → Option β
  | [], _ => none
  | (k', v') :: rest, k => if k' = k then some v' else listGet rest k

/-- `Map.set`: replace in place, or append a new key. -/
def listSet {β : Type} : List (String × β) → String → β → List (String × β)
  | [], k, v => [(k, v)]
  | (k', v') :: rest, k, v =>
    if k' = k then (k, v) :: rest else (k', v') :: listSet rest k v

/-- `Map.delete`. -/
def listDelete {β : Type} : List (String × β) → String → List (String × β)
  | [], _ => []
  | (k', v') :: rest, k =>
    if k' = k then rest else (k', v') :: listDelete rest k

/-- The mutable fields of a `CrossTabSync` instance that the protocol logic
reads or writes (`tickCallback` is tracked as a presence bit). -/
structure SyncState where
  tabId : String
  isLeader : Bool
  isFollower : Bool
  currentLeaderId : Option String
  availableLeaders : List (String × Peer)
  hasCallback : Bool
  deriving DecidableEq, Repr

/-- One `tickCallback(time, tickCount, settings)` invocation; a resync
replay passes a `none` time. -/
structure CallbackCall where
  time : Option Nat
  tickCount : Nat
  settings : Nat
  deriving DecidableEq, Repr

/-- Constructor state: no role, no leader, empty registry. -/
def initState (tabId : String) : SyncState :=
  { tabId := tabId
  , isLeader := false
  , isFollower := false
  , currentLeaderId := none
  , availableLeaders := []
  , hasCallback := false }

/-- `now - lastSeen > 3000` (with `Nat` truncation; a future `lastSeen`
yields 0 on both sides, like the negative JS difference, and is not
expired). -/
def expired (now : Nat) (p : Peer) : Bool :=
  decide (now - p.lastSeen > 3000)

/-- `selectNewLeader()`: drop every expired peer, then adopt the first
remaining registry key, or `null`. -/
def selectNewLeader (now : Nat) (st : SyncState) : SyncState :=
  let remaining := st.availableLeaders.filter (fun q => !expired now q.2)
  { st with availableLeaders := remaining
          , currentLeaderId := remaining.head?.map Prod.fst }

/-- The repeated replay block: if a current leader is registered and its
settings are usable and a callback is registered, invoke it once with a
`null` time. -/
def resyncEvents (st : SyncState) : List CallbackCall :=
  match st.currentLeaderId with
  | none => []
  | some id =>
    match listGet st.availableLeaders id with
    | none => []
    | some p =>
      match p.settings with
      | none => []
      | some v => if st.hasCallback then [⟨none, 0, v⟩] else []

/-- A `leader-announce` message payload. -/
structure AnnounceMsg where
  tabId : String
  bpm : Nat
  maxBPM : Nat
  settings : Option Nat
  deriving DecidableEq, Repr

/-- A `tick` message payload. -/
structure TickMsg where
  tabId : String
  time : Option Nat
  tickCount : Nat
  settings : Nat
  deriving DecidableEq, Repr

/-- `handleMessage` on `leader-announce`. -/
def handleLeaderAnnounce (now : Nat) (m : AnnounceMsg) (st : SyncState) :
    SyncState × List CallbackCall :=
  if st.isLeader = false ∨ m.tabId ≠ st.tabId then
    let entry : Peer := { lastSeen := now, bpm := m.bpm, maxBPM := m.maxBPM, settings := m.settings }
    let st1 := { st with availableLeaders := listSet st.availableLeaders m.tabId entry }
    if st1.isFollower = true ∧ st1.currentLeaderId = none then
      let st2 := { st1 with currentLeaderId := some m.tabId }
      match m.settings with
      | some v => if st2.hasCallback then (st2, [⟨none, 0, v⟩]) else (st2, [])
      | none => (st2, [])
    else if st1.isFollower = true ∧ st1.currentLeaderId = some m.tabId then
      match m.settings with
      | some v => if st1.hasCallback then (st1, [⟨none, 0, v⟩]) else (st1, [])
      | none => (st1, [])
    else (st1, [])
  else (st, [])

/-- `handleMessage` on `tick`: forward to the callback when following this
sender, then refresh the sender's `lastSeen` if registered. -/
def handleTick (now : Nat) (m : TickMsg) (st : SyncState) :
    SyncState × List CallbackCall :=
  let ev :=
    if st.isFollower = true ∧ st.currentLeaderId = some m.tabId ∧ st.hasCallback = true then
      [CallbackCall.mk m.time m.tickCount m.settings]
    else []
  match listGet st.availableLeaders m.tabId with
  | some p =>
    ({ st with availableLeaders :=
        listSet st.availableLeaders m.tabId { p with lastSeen := now } }, ev)
  | none => (st, ev)

/-- `handleMessage` on `leader-stop`: drop the named peer and, when it was a
following peer's current leader, re-elect — with no callback invocation. -/
def handleLeaderStop (now : Nat) (msgTabId : String) (st : SyncState) :
    SyncState × List CallbackCall :=
  let st1 := { st with availableLeaders := listDelete st.availableLeaders msgTabId }
  if st1.isFollower = true ∧ st1.currentLeaderId = some msgTabId then
    (selectNewLeader now st1, [])
  else (st1, [])

/-- `stopFollower()`. -/
def stopFollowerState (st : SyncState) : SyncState :=
  if st.isFollower = false then st
  else { st with isFollower := false, currentLeaderId := none, hasCallback := false }

/-- `stopLeader()` (the broadcast of `leader-stop` is an outgoing message). -/
def stopLeaderState (st : SyncState) : SyncState :=
  if st.isLeader = false then st
  else { st with isLeader := false,
                 availableLeaders := listDelete st.availableLeaders st.tabId }

/-- `startLeader(bpm, maxBPM, settings)` restricted to protocol state. -/
def startLeader (st : SyncState) : SyncState :=
  if st.isLeader = true then st
  else
    let st1 := stopFollowerState st
    { st1 with isLeader := true, isFollower := false }

/-- `startFollower(tickCallback)`: stop leading, become a follower, elect a
leader and replay its settings when available. -/
def startFollower (now : Nat) (st : SyncState) : SyncState × List CallbackCall :=
  if st.isFollower = true then (st, [])
  else
    let st1 := stopLeaderState st
    let st2 := { st1 with isFollower := true, isLeader := false, hasCallback := true }
    let st3 := selectNewLeader now st2
    (st3, resyncEvents st3)

/-- One iteration of the sweep's `for` loop at registry key `k` (a key
deleted by an earlier iteration or by `selectNewLeader` is skipped, as the
JS `Map` iterator does). -/
def sweepStep (now : Nat) (k : String) (st : SyncState) :
    SyncState × List CallbackCall :=
  match listGet st.availableLeaders k with
  | none => (st, [])
  | some p =>
    if expired now p then
      let st1 := { st with availableLeaders := listDelete st.availableLeaders k }
      if st1.currentLeaderId = some k then
        let st2 := selectNewLeader now st1
        (st2, resyncEvents st2)
      else (st1, [])
    else (st, [])

/-- The sweep loop over a snapshot of keys. -/
def sweepGo (now : Nat) : List String → SyncState → SyncState × List CallbackCall
  | [], st => (st, [])
  | k :: rest, st =>
    let s1 := sweepStep now k st
    let s2 := sweepGo now rest s1.1
    (s2.1, s1.2 ++ s2.2)

/-- The body of the follower's 1000ms interval: evict expired peers (with
re-election and resync when the current leader expires), then a final
re-election attempt when no leader remains selected. -/
def sweep (now : Nat) (st : SyncState) : SyncState × List CallbackCall :=
  if st.isFollower = false then (st, [])
  else
    let s1 := sweepGo now (st.availableLeaders.map Prod.fst) st
    if s1.1.currentLeaderId = none then
      let st2 := selectNewLeader now s1.1
      (st2, s1.2 ++ resyncEvents st2)
    else s1

/-- `destroy()`: step down as leader, then stop following. -/
def destroy (st : SyncState) : SyncState :=
  stopFollowerState (stopLeaderState st)

/-- Every externally triggerable transition of a `CrossTabSync` instance. -/
inductive SyncOp where
  | startLeaderOp
  | stopLeaderOp
  | startFollowerOp (now : Nat)
  | stopFollowerOp
  | destroyOp
  | announceOp (now : Nat) (m : AnnounceMsg)
  | tickOp (now : Nat) (m : TickMsg)
  | leaderStopOp (now : Nat) (tabId : String)
  | sweepOp (now : Nat)
  deriving DecidableEq, Repr

/-- State after one transition. -/
def applyOp (op : SyncOp) (st : SyncState) : SyncState :=
  match op with
  | .startLeaderOp => startLeader st
  | .stopLeaderOp => stopLeaderState st
  | .startFollowerOp now => (startFollower now st).1
  | .stopFollowerOp => stopFollowerState st
  | .destroyOp => destroy st
  | .announceOp now m => (handleLeaderAnnounce now m st).1
  | .tickOp now m => (handleTick now m st).1
  | .leaderStopOp now id => (handleLeaderStop now id st).1
  | .sweepOp now => (sweep now st).1

/-! ### Role exclusivity (C8) -/

theorem handleLeaderAnnounce_isLeader (now : Nat) (m : AnnounceMsg) (st : SyncState) :
    (handleLeaderAnnounce now m st).1.isLeader = st.isLeader := by
  unfold handleLeaderAnnounce
  dsimp only []
  repeat' split
  all_goals rfl

theorem handleLeaderAnnounce_isFollower (now : Nat) (m : AnnounceMsg) (st : SyncState) :
    (handleLeaderAnnounce now m st).1.isFollower = st.isFollower := by
  unfold handleLeaderAnnounce
  dsimp only []
  repeat' split
  all_goals rfl

theorem handleTick_isLeader (now : Nat) (m : TickMsg) (st : SyncState) :
    (handleTick now m st).1.isLeader = st.isLeader := by
  unfold handleTick
  dsimp only []
  repeat' split
  all_goals rfl

theorem handleTick_isFollower (now : Nat) (m : TickMsg) (st : SyncState) :
    (handleTick now m st).1.isFollower = st.isFollower := by
  unfold handleTick
  dsimp only []
  repeat' split
  all_goals rfl

theorem handleLeaderStop_isLeader (now : Nat) (id : String) (st : SyncState) :
    (handleLeaderStop now id st).1.isLeader = st.isLeader := by
  unfold handleLeaderStop
  dsimp only []
  repeat' split
  all_goals rfl

theorem handleLeaderStop_isFollower (now : Nat) (id : String) (st : SyncState) :
    (handleLeaderStop now id st).1.isFollower = st.isFollower := by
  unfold handleLeaderStop
  dsimp only []
  repeat' split
  all_goals rfl

theorem sweepStep_isLeader (now : Nat) (k : String) (st : SyncState) :
    (sweepStep now k st).1.isLeader = st.isLeader := by
  unfold sweepStep
  dsimp only []
  repeat' split
  all_goals rfl

theorem sweepStep_isFollower (now : Nat) (k : String) (st : SyncState) :
    (sweepStep now k st).1.isFollower = st.isFollower := by
  unfold sweepStep
  dsimp only []
  repeat' split
  all_goals rfl

theorem sweepGo_isLeader (now : Nat) :
    ∀ (ks : List String) (st : SyncState), (sweepGo now ks st).1.isLeader = st.isLeader
  | [], _ => rfl
  | k :: rest, st => by
    show (sweepGo now rest (sweepStep now k st).1).1.isLeader = st.isLeader
    rw [sweepGo_isLeader now rest, sweepStep_isLeader]

theorem sweepGo_isFollower (now : Nat) :
    ∀ (ks : List String) (st : SyncState), (sweepGo now ks st).1.isFollower = st.isFollower
  | [], _ => rfl
  | k :: rest, st => by
    show (sweepGo now rest (sweepStep now k st).1).1.isFollower = st.isFollower
    rw [sweepGo_isFollower now rest, sweepStep_isFollower]

theorem sweep_isLeader (now : Nat) (st : SyncState) :
    (sweep now st).1.isLeader = st.isLeader := by
  unfold sweep
  dsimp only []
  split
  · rfl
  · split
    · show (selectNewLeader now (sweepGo now (st.availableLeaders.map Prod.fst) st).1).isLeader =
        st.isLeader
      show (sweepGo now (st.availableLeaders.map Prod.fst) st).1.isLeader = st.isLeader
      exact sweepGo_isLeader now _ st
    · exact sweepGo_isLeader now _ st

theorem sweep_isFollower (now : Nat) (st : SyncState) :
    (sweep now st).1.isFollower = st.isFollower := by
  unfold sweep
  dsimp only []
  split
  · rfl
  · split
    · show (selectNewLeader now (sweepGo now (st.availableLeaders.map Prod.fst) st).1).isFollower =
        st.isFollower
      show (sweepGo now (st.availableLeaders.map Prod.fst) st).1.isFollower = st.isFollower
      exact sweepGo_isFollower now _ st
    · exact sweepGo_isFollower now _ st

theorem stopLeaderState_exclusive (st : SyncState)
    (h : (st.isLeader && st.isFollower) = false) :
    ((stopLeaderState st).isLeader && (stopLeaderState st).isFollower) = false := by
  unfold stopLeaderState
  split
  · exact h
  · rfl

theorem stopFollowerState_exclusive (st : SyncState)
    (h : (st.isLeader && st.isFollower) = false) :
    ((stopFollowerState st).isLeader && (stopFollowerState st).isFollower) = false := by
  unfold stopFollowerState
  split
  · exact h
  · simp

theorem applyOp_exclusive (op : SyncOp) (st : SyncState)
    (h : (st.isLeader && st.isFollower) = false) :
    ((applyOp op st).isLeader && (applyOp op st).isFollower) = false := by
  cases op with
  | startLeaderOp =>
    show ((startLeader st).isLeader && (startLeader st).isFollower) = false
    unfold startLeader
    split
    · exact h
    · rfl
  | stopLeaderOp => exact stopLeaderState_exclusive st h
  | startFollowerOp now =>
    show (((startFollower now st).1).isLeader && ((startFollower now st).1).isFollower) = false
    unfold startFollower
    split
    · exact h
    · rfl
  | stopFollowerOp => exact stopFollowerState_exclusive st h
  | destroyOp => exact stopFollowerState_exclusive _ (stopLeaderState_exclusive st h)
  | announceOp now m =>
    show (((handleLeaderAnnounce now m st).1).isLeader &&
      ((handleLeaderAnnounce now m st).1).isFollower) = false
    rw [handleLeaderAnnounce_isLeader, handleLeaderAnnounce_isFollower]
    exact h
  | tickOp now m =>
    show (((handleTick now m st).1).isLeader && ((handleTick now m st).1).isFollower) = false
    rw [handleTick_isLeader, handleTick_isFollower]
    exact h
  | leaderStopOp now id =>
    show (((handleLeaderStop now id st).1).isLeader &&
      ((handleLeaderStop now id st).1).isFollower) = false
    rw [handleLeaderStop_isLeader, handleLeaderStop_isFollower]
    exact h
  | sweepOp now =>
    show (((sweep now st).1).isLeader && ((sweep now st).1).isFollower) = false
    rw [sweep_isLeader, sweep_isFollower]
    exact h

theorem foldl_exclusive :
    ∀ (ops : List SyncOp) (st : SyncState),
      (st.isLeader && st.isFollower) = false →
      (((ops.foldl (fun s op => applyOp op s) st).isLeader &&
        (ops.foldl (fun s op => applyOp op s) st).isFollower) = false)
  | [], _, h => h
  | op :: rest, st, h => foldl_exclusive rest _ (applyOp_exclusive op st h)

/-- C8. In every state reachable by any sequence of leader/follower
transitions, message handling and sweeps, `isLeader` and `isFollower` are
never both true. -/
theorem crossTab_roles_exclusive (tabId : String) (ops : List SyncOp) :
    ((ops.foldl (fun s op => applyOp op s) (initState tabId)).isLeader &&
      (ops.foldl (fun s op => applyOp op s) (initState tabId)).isFollower) = false :=
  foldl_exclusive ops (initState tabId) rfl

/-! ### Eviction, re-election and resync (C9) -/

theorem listGet_mem {β : Type} :
    ∀ (m : List (String × β)) (k : String) (v : β),
      listGet m k = some v → (k, v) ∈ m
  | [], _, _, h => by simp [listGet] at h
  | (k0, v0) :: rest, k, v, h => by
    rw [listGet] at h
    by_cases hk : k0 = k
    · rw [if_pos hk] at h
      subst hk
      simp at h
      simp [h]
    · rw [if_neg hk] at h
      exact List.mem_cons_of_mem _ (listGet_mem rest k v h)

theorem listGet_delete_ne {β : Type} :
    ∀ (m : List (String × β)) (k k' : String), k' ≠ k →
      listGet (listDelete m k) k' = listGet m k'
  | [], _, _, _ => rfl
  | (k0, v0) :: rest, k, k', hne => by
    rw [listDelete, listGet]
    by_cases hk : k0 = k
    · rw [if_pos hk]
      subst hk
      rw [if_neg (fun h => hne h.symm)]
    · rw [if_neg hk, listGet]
      by_cases hk' : k0 = k'
      · rw [if_pos hk', if_pos hk']
      · rw [if_neg hk', if_neg hk', listGet_delete_ne rest k k' hne]

theorem filter_delete {β : Type} (pred : String × β → Bool) :
    ∀ (m : List (String × β)) (k : String) (p : β),
      listGet m k = some p → pred (k, p) = false →
      (listDelete m k).filter pred = m.filter pred
  | [], k, p, hget, _ => by simp [listGet] at hget
  | (k0, v0) :: rest, k, p, hget, hpred => by
    rw [listGet] at hget
    by_cases hk : k0 = k
    · rw [if_pos hk] at hget
      subst hk
      simp only [Option.some.injEq] at hget
      subst hget
      rw [listDelete, if_pos rfl, List.filter_cons, hpred]
      simp
    · rw [if_neg hk] at hget
      rw [listDelete, if_neg hk, List.filter_cons, List.filter_cons,
        filter_delete pred rest k p hget hpred]

/-- The first registry entry is what `get` returns for its key. -/
theorem listGet_head {β : Type} (m : List (String × β)) (k : String) (v : β)
    (h : m.head? = some (k, v)) : listGet m k = some v := by
  cases m with
  | nil => simp at h
  | cons kv rest =>
    simp only [List.head?_cons, Option.some.injEq] at h
    subst h
    rw [listGet, if_pos rfl]

/-- A sweep pass over a registry with no expired peers changes nothing and
emits nothing. -/
theorem sweepGo_allFresh (now : Nat) :
    ∀ (ks : List String) (st : SyncState),
      (∀ q ∈ st.availableLeaders, expired now q.2 = false) →
      sweepGo now ks st = (st, [])
  | [], _, _ => rfl
  | k :: rest, st, h => by
    have hstep : sweepStep now k st = (st, []) := by
      unfold sweepStep
      cases hget : listGet st.availableLeaders k with
      | none => rfl
      | some p =>
        have hf := h (k, p) (listGet_mem _ _ _ hget)
        simp [hf]
    rw [sweepGo]
    simp [hstep, sweepGo_allFresh now rest st h]

/-- The fresh filter predicate used by `selectNewLeader`. -/
def freshPred (now : Nat) : String × Peer → Bool :=
  fun q => !expired now q.2

/-- The sweep loop, when the current leader is registered, expired, and in
the pending key list, ends in exactly the `selectNewLeader` state and emits
exactly its resync events. -/
theorem sweepGo_evict (now : Nat) :
    ∀ (ks : List String) (st : SyncState) (L : String) (p : Peer),
      st.currentLeaderId = some L → L ∈ ks →
      listGet st.availableLeaders L = some p → expired now p = true →
      sweepGo now ks st =
        (selectNewLeader now st, resyncEvents (selectNewLeader now st))
  | [], _, _, _, _, hks, _, _ => absurd hks (List.not_mem_nil _)
  | k :: rest, st, L, p, hcur, hks, hget, hexp => by
    by_cases hk : k = L
    · subst hk
      have hstep : sweepStep now k st =
          (selectNewLeader now st, resyncEvents (selectNewLeader now st)) := by
        unfold sweepStep
        rw [hget]
        dsimp only []
        rw [if_pos (by rw [hexp]), if_pos (by exact hcur)]
        have hsel : selectNewLeader now
            { st with availableLeaders := listDelete st.availableLeaders k } =
            selectNewLeader now st := by
          unfold selectNewLeader
          dsimp only []
          rw [filter_delete _ st.availableLeaders k p hget (by simp [freshPred, hexp])]
        rw [hsel]
      rw [sweepGo]
      rw [hstep]
      have hfresh : ∀ q ∈ (selectNewLeader now st).availableLeaders,
          expired now q.2 = false := by
        intro q hq
        have := (List.mem_filter.mp hq).2
        simpa using this
      rw [sweepGo_allFresh now rest _ hfresh]
      simp
    · have hrest : L ∈ rest := by
        cases hks with
        | head => exact absurd rfl hk
        | tail _ h => exact h
      rw [sweepGo]
      unfold sweepStep
      cases hgk : listGet st.availableLeaders k with
      | none =>
        dsimp only []
        rw [sweepGo_evict now rest st L p hcur hrest hget hexp]
        simp
      | some q =>
        dsimp only []
        by_cases hqe : expired now q = true
        · rw [if_pos hqe]
          set st1 : SyncState :=
            { st with availableLeaders := listDelete st.availableLeaders k } with hst1
          have hne : ¬ st1.currentLeaderId = some k := by
            show ¬ st.currentLeaderId = some k
            rw [hcur]
            intro hcontra
            simp only [Option.some.injEq] at hcontra
            exact hk hcontra.symm
          rw [if_neg hne]
          dsimp only []
          have hget' : listGet st1.availableLeaders L = some p :=
            (listGet_delete_ne st.availableLeaders k L (fun h => hk h.symm)).trans hget
          have hcur' : st1.currentLeaderId = some L := hcur
          rw [sweepGo_evict now rest st1 L p hcur' hrest hget' hexp]
          have hsel : selectNewLeader now st1 = selectNewLeader now st := by
            unfold selectNewLeader
            dsimp only []
            rw [filter_delete _ st.availableLeaders k q hgk (by simp [hqe])]
          rw [hsel]
          simp
        · rw [if_neg hqe]
          dsimp only []
          rw [sweepGo_evict now rest st L p hcur hrest hget hexp]
          simp

/-- A sweep that finds the current leader expired ends in the
`selectNewLeader` state and emits exactly its resync events. -/
theorem sweep_expired_current (now : Nat) (st : SyncState) (L : String) (p : Peer)
    (hf : st.isFollower = true) (hcur : st.currentLeaderId = some L)
    (hget : listGet st.availableLeaders L = some p) (hexp : expired now p = true) :
    sweep now st = (selectNewLeader now st, resyncEvents (selectNewLeader now st)) := by
  unfold sweep
  rw [if_neg (by simp [hf])]
  dsimp only []
  have hmem : L ∈ st.availableLeaders.map Prod.fst :=
    List.mem_map.mpr ⟨(L, p), listGet_mem _ _ _ hget, rfl⟩
  rw [sweepGo_evict now _ st L p hcur hmem hget hexp]
  dsimp only []
  cases hh : (selectNewLeader now st).currentLeaderId with
  | some id =>
    rw [if_neg (by simp)]
  | none =>
    rw [if_pos rfl]
    have hFnil : st.availableLeaders.filter (fun q => !expired now q.2) = [] := by
      have h1 := hh
      unfold selectNewLeader at h1
      dsimp only [] at h1
      exact List.head?_eq_none_iff.mp (Option.map_eq_none'.mp h1)
    have hsel2 : selectNewLeader now (selectNewLeader now st) = selectNewLeader now st := by
      unfold selectNewLeader
      dsimp only []
      rw [hFnil]
      rfl
    rw [hsel2]
    have hres : resyncEvents (selectNewLeader now st) = [] := by
      unfold resyncEvents
      rw [hh]
    rw [hres]
    rfl

/-- A follower's `leader-stop` handling for its current leader: evict,
re-elect via `selectNewLeader`, and emit no callback. -/
theorem handleLeaderStop_current (now : Nat) (st : SyncState) (L : String)
    (hf : st.isFollower = true) (hcur : st.currentLeaderId = some L) :
    handleLeaderStop now L st =
      (selectNewLeader now
        { st with availableLeaders := listDelete st.availableLeaders L }, []) := by
  unfold handleLeaderStop
  dsimp only []
  rw [if_pos ⟨hf, hcur⟩]

/-- The concrete follower state of the C9 counterexample: following `"A"`,
with a fresh alternative `"B"` registered and a callback in place. -/
def exampleStopState : SyncState :=
  { tabId := "me"
  , isLeader := false
  , isFollower := true
  , currentLeaderId := some "A"
  , availableLeaders := [("A", ⟨1000, 120, 240, some 5⟩), ("B", ⟨1000, 100, 200, some 7⟩)]
  , hasCallback := true }

/-- C9 counterexample: receiving `leader-stop` for the adopted leader `"A"`
successfully elects `"B"`, yet invokes the tick callback zero times — the
leader-stop path never replays a resync signal, only the sweep path does. -/
theorem leaderStop_resync_counterexample :
    (handleLeaderStop 1500 "A" exampleStopState).1.currentLeaderId = some "B" ∧
    (handleLeaderStop 1500 "A" exampleStopState).2 = [] := by
  constructor
  · decide
  · decide

/-- C9 (amended). On `leader-stop` for the current leader and on a sweep
finding the current leader expired, a follower evicts that peer and adopts
the first remaining non-expired peer (or none), per `selectNewLeader`;
a sweep-triggered election replays exactly the resync events of the new
state — one callback with a `null` time and the new leader's settings when
the elected peer has usable settings and a callback is registered, none
otherwise — while a leader-stop-triggered election invokes no callback. -/
theorem crossTab_reelection (now : Nat) (st : SyncState) :
    (∀ L, st.isFollower = true → st.currentLeaderId = some L →
      handleLeaderStop now L st =
        (selectNewLeader now
          { st with availableLeaders := listDelete st.availableLeaders L }, [])) ∧
    (∀ L p, st.isFollower = true → st.currentLeaderId = some L →
      listGet st.availableLeaders L = some p → expired now p = true →
      sweep now st = (selectNewLeader now st, resyncEvents (selectNewLeader now st))) :=
  ⟨fun L hf hc => handleLeaderStop_current now st L hf hc,
   fun L p hf hc hg he => sweep_expired_current now st L p hf hc hg he⟩

/-- The concrete follower state of the C9 witness sweep: current leader
`"A"` expired (last seen 0, now 4000), `"B"` fresh with settings 7. -/
def exampleSweepState : SyncState :=
  { tabId := "me"
  , isLeader := false
  , isFollower := true
  , currentLeaderId := some "A"
  , availableLeaders := [("A", ⟨0, 120, 240, some 5⟩), ("B", ⟨5000, 100, 200, some 7⟩)]
  , hasCallback := true }

/-- Witness for the amended C9 at the two concrete follower states. -/
theorem crossTab_reelection_witness :
    handleLeaderStop 1500 "A" exampleStopState =
      (selectNewLeader 1500
        { exampleStopState with
          availableLeaders := listDelete exampleStopState.availableLeaders "A" }, []) ∧
    sweep 4000 exampleSweepState =
      (selectNewLeader 4000 exampleSweepState,
        resyncEvents (selectNewLeader 4000 exampleSweepState)) :=
  ⟨(crossTab_reelection 1500 exampleStopState).1 "A" rfl rfl,
   (crossTab_reelection 4000 exampleSweepState).2 "A" ⟨0, 120, 240, some 5⟩
     rfl rfl (by decide) (by decide)⟩

end BigDipper
